import Mathlib

/-!
Shallow embedding of the XP progression engine and record store of
`dnd_xp_bot.py`: the threshold table, the level calculator, progress
rendering, and the roster operations (join, status, award XP, set level,
party listing) acting on an association-list model of the persisted JSON
store.  Each operation threads the persisted file explicitly: it receives
the on-disk store (what `load_db` would read) and returns the on-disk
store after the operation (unchanged unless the operation calls
`save_db`).
-/

namespace DndXpBot

/-- Cumulative XP thresholds for levels 1–20 (`XP_THRESHOLDS` in the source). -/
def XP_THRESHOLDS : List Int :=
  [0, 300, 900, 2700, 6500, 14000, 23000, 34000, 48000, 64000,
   85000, 100000, 120000, 140000, 165000, 195000, 225000, 265000, 305000, 355000]

/-- Loop body of `level_from_xp`: walk the thresholds with a 1-based index,
remembering the last index whose threshold the xp total reaches. -/
def levelScan : List Int → Nat → Nat → Int → Nat
  | [], _, lvl, _ => lvl
  | t :: ts, i, lvl, xp => levelScan ts (i + 1) (if t ≤ xp then i else lvl) xp

/-- `level_from_xp` from the source: the last 1-based index `i` with
`xp_total >= XP_THRESHOLDS[i-1]` (defaulting to 1), capped at 20. -/
def level_from_xp (xp_total : Int) : Nat :=
  min (levelScan XP_THRESHOLDS 1 1 xp_total) 20

/-- `next_threshold` from the source: `none` at level ≥ 20, else the
cumulative threshold of the next level. -/
def next_threshold (level : Nat) : Option Int :=
  if 20 ≤ level then none else some (XP_THRESHOLDS.getD level 0)

/-- `prev_threshold` from the source: the table entry of the given level. -/
def prev_threshold (level : Nat) : Int :=
  XP_THRESHOLDS.getD (level - 1) 0

/-- `thresholdAt` of the spec: the table entry for a 1-based level, the same
lookup `XP_THRESHOLDS[level - 1]` the source performs in `join` and
`setlevel`. -/
def thresholdAt (level : Nat) : Int :=
  XP_THRESHOLDS.getD (level - 1) 0

/-- `remaining_to_next` from the source. -/
def remaining_to_next (xp_total : Int) : Option Int :=
  match next_threshold (level_from_xp xp_total) with
  | none => none
  | some nxt => some (max 0 (nxt - xp_total))

/-- `progress_in_level` from the source. -/
def progress_in_level (xp_total : Int) : Int × Int × Nat :=
  let lvl := level_from_xp xp_total
  if 20 ≤ lvl then (0, 0, 20)
  else
    let low := prev_threshold lvl
    let high := next_threshold lvl
    let cur := xp_total - low
    let need := match high with
      | some h => h - low
      | none => 0
    (max 0 cur, max 0 need, lvl)

/-- Python `round` on an exactly-represented value: round half to even. -/
def pyRound (q : ℚ) : Int :=
  let f := ⌊q⌋
  let r := q - (f : ℚ)
  if r < 1 / 2 then f
  else if 1 / 2 < r then f + 1
  else if f % 2 = 0 then f else f + 1

/-- `render_progress_bar` from the source, with the float division
`cur / need` modelled exactly as a rational. -/
def render_progress_bar (cur need : Int) (width : Nat) : String :=
  if need ≤ 0 then String.mk (List.replicate width '█')
  else
    let filled := pyRound ((width : ℚ) * ((cur : ℚ) / (need : ℚ)))
    let clamped := max 0 (min (width : Int) filled)
    String.mk (List.replicate clamped.toNat '█' ++
               List.replicate (width - clamped.toNat) '░')

/-! ### Record store

The persisted JSON file is a mapping guild-id → {"members": mapping
user-id → {"xp": n}}.  Python dictionaries are modelled as association
lists: assignment updates in place when the key exists and appends
otherwise, exactly like `dict.__setitem__` preserves insertion order. -/

/-- Member records of one guild bucket: user id → xp. -/
abbrev Members := List (String × Int)

/-- The whole store: guild id → member records. -/
abbrev DB := List (String × Members)

/-- Dictionary lookup. -/
def getA {α : Type} : List (String × α) → String → Option α
  | [], _ => none
  | (k0, v0) :: xs, k => if k = k0 then some v0 else getA xs k

/-- Dictionary assignment: replace in place, or append when absent. -/
def setA {α : Type} : List (String × α) → String → α → List (String × α)
  | [], k, v => [(k, v)]
  | (k0, v0) :: xs, k, v => if k = k0 then (k0, v) :: xs else (k0, v0) :: setA xs k v

/-- XP stored for a member, if the guild and member records exist. -/
def memberXp (file : DB) (gid uid : String) : Option Int :=
  match getA file gid with
  | none => none
  | some g => getA g uid

/-- `guild_bucket` from the source: returns the (possibly freshly inserted
empty) bucket for the guild, together with the updated in-memory store. -/
def guild_bucket (db : DB) (gid : String) : DB × Members :=
  match getA db gid with
  | some g => (db, g)
  | none => (setA db gid [], [])

/-- `ensure_member` from the source: returns the member's xp, inserting an
`{"xp": 0}` record when absent. -/
def ensure_member (g : Members) (uid : String) : Members × Int :=
  match getA g uid with
  | some xp => (g, xp)
  | none => (setA g uid 0, 0)

/-- Result dictionary built by `add_xp_for_member` in the source. -/
structure AddInfo where
  add : Int
  after_xp : Int
  after_lvl : Nat
  leveled : Bool
  rem : Option Int
  cur_in_level : Int
  need_for_level : Int
deriving DecidableEq

/-- `add_xp_for_member` from the source: inside the `db_lock` critical
section, load, clamp `max 0 (xp + add)`, write back and save. -/
def add_xp_for_member (file : DB) (gid uid : String) (a : Int) : DB × AddInfo :=
  let db := file
  let p1 := guild_bucket db gid
  let p2 := ensure_member p1.2 uid
  let before_xp := p2.2
  let before_lvl := level_from_xp before_xp
  let after_xp := max 0 (before_xp + a)
  let g2 := setA p2.1 uid after_xp
  let db2 := setA p1.1 gid g2
  let after_lvl := level_from_xp after_xp
  let pr := progress_in_level after_xp
  (db2,
    { add := a, after_xp := after_xp, after_lvl := after_lvl,
      leveled := decide (before_lvl < after_lvl),
      rem := remaining_to_next after_xp,
      cur_in_level := pr.1, need_for_level := pr.2.1 })

/-- Sequential application of `add_xp_for_member` with a list of deltas:
each call is one whole `db_lock` critical section, so any interleaving of
concurrent calls is some serial order of the deltas. -/
def applyAwards (file : DB) (gid uid : String) (ds : List Int) : DB :=
  ds.foldl (fun f d => (add_xp_for_member f gid uid d).1) file

/-- Result of `join` shown to the caller. -/
structure JoinInfo where
  already : Bool
  xp : Int
  lvl : Nat
  rem : Option Int
deriving DecidableEq

/-- `join` from the source: an existing member is reported unchanged (no
save); a new member is seeded with `max requestedXp (thresholdAt level)`
and saved. -/
def join (file : DB) (gid uid : String) (level : Nat) (xp : Int) : DB × JoinInfo :=
  let p1 := guild_bucket file gid
  match getA p1.2 uid with
  | some xp_now =>
      (file, { already := true, xp := xp_now, lvl := level_from_xp xp_now,
               rem := remaining_to_next xp_now })
  | none =>
      let min_xp := XP_THRESHOLDS.getD (level - 1) 0
      let xp1 := if xp < min_xp then min_xp else xp
      let g1 := setA p1.2 uid xp1
      let db2 := setA p1.1 gid g1
      (db2, { already := false, xp := xp1, lvl := level_from_xp xp1,
              rem := remaining_to_next xp1 })

/-- `setlevel` from the source (after the permission gate): snap the
member's xp to the exact threshold of the requested level and save; the
second component is the xp read back after the write. -/
def setlevel (file : DB) (gid uid : String) (level : Nat) : DB × Int :=
  let p1 := guild_bucket file gid
  let p2 := ensure_member p1.2 uid
  let g2 := setA p2.1 uid (XP_THRESHOLDS.getD (level - 1) 0)
  let db2 := setA p1.1 gid g2
  (db2, XP_THRESHOLDS.getD (level - 1) 0)

/-- `status` from the source: read-only; reports level, xp and
remaining-to-next for an existing member, `none` otherwise.  No save: the
persisted file component passes through unchanged. -/
def status (file : DB) (gid uid : String) : DB × Option (Nat × Int × Option Int) :=
  let g := (guild_bucket file gid).2
  match getA g uid with
  | none => (file, none)
  | some xp => (file, some ((progress_in_level xp).2.2, xp, remaining_to_next xp))

/-- Python `str.lower` on the caller-supplied display name. -/
def lowerName (s : String) : String := s.map Char.toLower

/-- The sort key tuple `(-lvl, -xp, name.lower(), xp, lvl, name)` built by
`party` in the source, ordered lexicographically as Python orders tuples. -/
def sortKey (e : String × Int) : Lex (Int × Lex (Int × Lex (String × Lex (Int × Lex (Int × String))))) :=
  toLex (-(level_from_xp e.2 : Int),
    toLex (-e.2,
      toLex (lowerName e.1,
        toLex (e.2, toLex ((level_from_xp e.2 : Int), e.1)))))

/-- Comparison used by `sortable.sort()` in the source. -/
def partyLE (a b : String × Int) : Prop := sortKey a ≤ sortKey b

instance : DecidableRel partyLE :=
  fun a b => inferInstanceAs (Decidable (sortKey a ≤ sortKey b))

instance : IsTotal (String × Int) partyLE :=
  ⟨fun a b => le_total (sortKey a) (sortKey b)⟩

instance : IsTrans (String × Int) partyLE :=
  ⟨fun _ _ _ hab hbc => le_trans hab hbc⟩

/-- `party` from the source: read-only; the entries `(display name, xp)` of
the guild bucket sorted by the tuple key.  No save: the persisted file
component passes through unchanged. -/
def party (file : DB) (gid : String) (nameOf : String → String) :
    DB × List (String × Int) :=
  let g := (guild_bucket file gid).2
  let entries := g.map (fun p => (nameOf p.1, p.2))
  (file, List.insertionSort partyLE entries)

/-- Ordering stated by the spec: descending level, then descending xp, then
ascending case-insensitive display name. -/
def partyOrder (a b : String × Int) : Prop :=
  level_from_xp b.2 < level_from_xp a.2 ∨
    (level_from_xp a.2 = level_from_xp b.2 ∧
      (b.2 < a.2 ∨ (a.2 = b.2 ∧ lowerName a.1 ≤ lowerName b.1)))

end DndXpBot

namespace DndXpBot

/-! ### Store lemmas -/

/-- Assignment followed by lookup at the same key. -/
theorem getA_setA_self {α : Type} (l : List (String × α)) (k : String) (v : α) :
    getA (setA l k v) k = some v := by
  induction l with
  | nil => simp [setA, getA]
  | cons p xs ih =>
      obtain ⟨k0, v0⟩ := p
      by_cases h : k = k0 <;> simp [setA, getA, h, ih]

/-- One `add_xp_for_member` call clamps the stored xp at zero, treating a
missing record as xp 0. -/
theorem add_xp_memberXp (file : DB) (gid uid : String) (a : Int) :
    memberXp (add_xp_for_member file gid uid a).1 gid uid
      = some (max 0 ((memberXp file gid uid).getD 0 + a)) := by
  unfold add_xp_for_member guild_bucket ensure_member memberXp
  cases hg : getA file gid with
  | none => simp [hg, getA_setA_self, getA]
  | some g =>
      cases hu : getA g uid with
      | none => simp [hg, hu, getA_setA_self]
      | some x => simp [hg, hu, getA_setA_self]

end DndXpBot

namespace DndXpBot

/-! ### Level calculator lemmas -/

/-- The threshold walk is monotone in both the xp total and the running
level, as long as the running levels stay below the running index. -/
theorem levelScan_le_levelScan :
    ∀ (ts : List Int) (i lvl1 lvl2 : Nat) (xp1 xp2 : Int),
      xp1 ≤ xp2 → lvl1 ≤ lvl2 → lvl1 ≤ i → lvl2 ≤ i →
      levelScan ts i lvl1 xp1 ≤ levelScan ts i lvl2 xp2
  | [], _, _, _, _, _, _, h, _, _ => h
  | t :: ts, i, lvl1, lvl2, xp1, xp2, hx, h12, h1, h2 => by
    simp only [levelScan]
    split_ifs with ha hb hb
    · exact levelScan_le_levelScan ts (i + 1) i i xp1 xp2 hx le_rfl (by omega) (by omega)
    · exact absurd (le_trans ha hx) hb
    · exact levelScan_le_levelScan ts (i + 1) lvl1 i xp1 xp2 hx h1 (by omega) (by omega)
    · exact levelScan_le_levelScan ts (i + 1) lvl1 lvl2 xp1 xp2 hx h12 (by omega) (by omega)

/-- The threshold walk never drops below a positive running level. -/
theorem le_levelScan : ∀ (ts : List Int) (i lvl : Nat) (xp : Int),
    1 ≤ lvl → 1 ≤ i → 1 ≤ levelScan ts i lvl xp
  | [], _, _, _, h, _ => h
  | t :: ts, i, lvl, xp, h, hi => by
    simp only [levelScan]
    split_ifs with ha
    · exact le_levelScan ts (i + 1) i xp hi (by omega)
    · exact le_levelScan ts (i + 1) lvl xp h (by omega)

/-- C3: for every non-negative xp, `level_from_xp` lands in [1, 20], and it
is monotonically non-decreasing in the xp total. -/
theorem level_from_xp_bounds_mono (xp1 xp2 : Int) (h0 : 0 ≤ xp1) (h12 : xp1 ≤ xp2) :
    (1 ≤ level_from_xp xp1 ∧ level_from_xp xp1 ≤ 20) ∧
    level_from_xp xp1 ≤ level_from_xp xp2 := by
  have hb := le_levelScan XP_THRESHOLDS 1 1 xp1 le_rfl le_rfl
  have hm := levelScan_le_levelScan XP_THRESHOLDS 1 1 1 xp1 xp2 h12 le_rfl le_rfl le_rfl
  unfold level_from_xp
  omega

/-- Witness for C3 at xp1 = 0, xp2 = 300. -/
theorem level_from_xp_bounds_mono_witness :
    (1 ≤ level_from_xp 0 ∧ level_from_xp 0 ≤ 20) ∧
    level_from_xp 0 ≤ level_from_xp 300 :=
  level_from_xp_bounds_mono 0 300 (by decide) (by decide)

/-- Start threshold of a level is enough to be at that level. -/
theorem level_from_xp_thresholdAt (L : Nat) (h1 : 1 ≤ L) (h2 : L ≤ 20) :
    level_from_xp (thresholdAt L) = L := by
  interval_cases L <;> decide

/-- One xp short of a level's start threshold leaves the previous level. -/
theorem level_from_xp_below_thresholdAt (L : Nat) (h1 : 2 ≤ L) (h2 : L ≤ 20) :
    level_from_xp (thresholdAt L - 1) = L - 1 := by
  interval_cases L <;> decide

/-- C4: the 20-entry table and `level_from_xp` round-trip: the threshold of
level L maps to level L, and one less xp maps to level L - 1. -/
theorem threshold_level_roundtrip (L : Nat) (h1 : 1 ≤ L) (h2 : L ≤ 20) :
    XP_THRESHOLDS.length = 20 ∧
    level_from_xp (thresholdAt L) = L ∧
    (2 ≤ L → level_from_xp (thresholdAt L - 1) = L - 1) :=
  ⟨rfl, level_from_xp_thresholdAt L h1 h2,
   fun h => level_from_xp_below_thresholdAt L h h2⟩

/-- Witness for C4 at L = 5. -/
theorem threshold_level_roundtrip_witness :
    XP_THRESHOLDS.length = 20 ∧
    level_from_xp (thresholdAt 5) = 5 ∧
    (2 ≤ 5 → level_from_xp (thresholdAt 5 - 1) = 5 - 1) :=
  threshold_level_roundtrip 5 (by decide) (by decide)

end DndXpBot

namespace DndXpBot

/-! ### Award-XP lemmas -/

/-- Result record of `add_xp_for_member` when the member already exists. -/
theorem add_xp_info (file : DB) (gid uid : String) (a x : Int)
    (hx : memberXp file gid uid = some x) :
    (add_xp_for_member file gid uid a).2 =
      { add := a, after_xp := max 0 (x + a),
        after_lvl := level_from_xp (max 0 (x + a)),
        leveled := decide (level_from_xp x < level_from_xp (max 0 (x + a))),
        rem := remaining_to_next (max 0 (x + a)),
        cur_in_level := (progress_in_level (max 0 (x + a))).1,
        need_for_level := (progress_in_level (max 0 (x + a))).2.1 } := by
  cases hg : getA file gid with
  | none => simp [memberXp, hg] at hx
  | some g =>
      simp only [memberXp, hg] at hx
      unfold add_xp_for_member guild_bucket ensure_member
      simp [hg, hx]

/-- C1: on a store where the member holds xp `x ≥ 0`, `add_xp_for_member`
writes back `max 0 (x + a)`, reports the after level of the new xp, sets
`leveled` exactly when the level computed from the new xp exceeds the
level computed from `x`, and the stored xp stays non-negative. -/
theorem awardXp_spec (file : DB) (gid uid : String) (a x : Int)
    (hx : memberXp file gid uid = some x) (hx0 : 0 ≤ x) :
    memberXp (add_xp_for_member file gid uid a).1 gid uid = some (max 0 (x + a)) ∧
    (add_xp_for_member file gid uid a).2.after_xp = max 0 (x + a) ∧
    (add_xp_for_member file gid uid a).2.after_lvl = level_from_xp (max 0 (x + a)) ∧
    ((add_xp_for_member file gid uid a).2.leveled = true ↔
      level_from_xp x < level_from_xp (max 0 (x + a))) ∧
    (∀ y, memberXp (add_xp_for_member file gid uid a).1 gid uid = some y → 0 ≤ y) := by
  refine ⟨?_, ?_, ?_, ?_, ?_⟩
  · rw [add_xp_memberXp, hx]
    rfl
  · rw [add_xp_info file gid uid a x hx]
  · rw [add_xp_info file gid uid a x hx]
  · rw [add_xp_info file gid uid a x hx]
    simp
  · intro y hy
    rw [add_xp_memberXp, hx] at hy
    simp at hy
    omega

/-- Witness for C1: xp 5, delta -9 clamps to 0. -/
theorem awardXp_spec_witness :
    memberXp (add_xp_for_member [("g", [("u", 5)])] "g" "u" (-9)).1 "g" "u"
      = some (max 0 (5 + (-9))) ∧
    (add_xp_for_member [("g", [("u", 5)])] "g" "u" (-9)).2.after_xp = max 0 (5 + (-9)) ∧
    (add_xp_for_member [("g", [("u", 5)])] "g" "u" (-9)).2.after_lvl
      = level_from_xp (max 0 (5 + (-9))) ∧
    ((add_xp_for_member [("g", [("u", 5)])] "g" "u" (-9)).2.leveled = true ↔
      level_from_xp 5 < level_from_xp (max 0 (5 + (-9)))) ∧
    (∀ y, memberXp (add_xp_for_member [("g", [("u", 5)])] "g" "u" (-9)).1 "g" "u"
        = some y → 0 ≤ y) :=
  awardXp_spec [("g", [("u", 5)])] "g" "u" (-9) 5 (by decide) (by decide)

/-- C2 counterexample: from xp 0, the serial order of deltas -5 then +3
ends at xp 3, not at `max 0 (0 + (-5 + 3)) = 0`: clamping inside the
sequence loses part of the negative delta, so the final xp is not
`max 0 (initial + sum)` and depends on the interleaving order. -/
theorem awardXp_seq_not_sum :
    ¬ (memberXp (applyAwards [("g", [("u", 0)])] "g" "u" [-5, 3]) "g" "u"
        = some (max 0 (0 + ([-5, 3] : List Int).sum))) := by
  decide

/-- C2 (amended): if every partial sum `initial + d1 + ... + dk` stays
non-negative — so the clamp at 0 never bites mid-sequence — any serial
order of the awards ends at `max 0 (initial + sum)`. -/
theorem awardXp_seq_spec :
    ∀ (ds : List Int) (file : DB) (gid uid : String) (x : Int),
      memberXp file gid uid = some x →
      (∀ k, 0 ≤ x + ((ds.take k).sum)) →
      memberXp (applyAwards file gid uid ds) gid uid = some (max 0 (x + ds.sum))
  | [], file, gid, uid, x, hx, hsums => by
      have h0 := hsums 0
      simp only [List.take_zero, List.sum_nil, add_zero] at h0
      simp only [applyAwards, List.foldl_nil, List.sum_nil, add_zero, hx]
      congr 1
      omega
  | d :: ds, file, gid, uid, x, hx, hsums => by
      have hd : 0 ≤ x + d := by
        have h1 := hsums 1
        simpa using h1
      have hstep : memberXp (add_xp_for_member file gid uid d).1 gid uid
          = some (x + d) := by
        rw [add_xp_memberXp, hx]
        simp only [Option.getD_some]
        congr 1
        omega
      have htail : ∀ k, 0 ≤ (x + d) + ((ds.take k).sum) := by
        intro k
        have hk := hsums (k + 1)
        simp only [List.take_succ_cons, List.sum_cons] at hk
        omega
      have hrec := awardXp_seq_spec ds (add_xp_for_member file gid uid d).1
        gid uid (x + d) hstep htail
      simp only [applyAwards, List.foldl_cons] at hrec ⊢
      rw [hrec]
      simp only [List.sum_cons]
      congr 2
      omega

/-- Witness for C2 (amended): xp 5 with deltas -3 then +4; every partial
sum stays non-negative, ending at 6. -/
theorem awardXp_seq_spec_witness :
    memberXp (applyAwards [("g", [("u", 5)])] "g" "u" [-3, 4]) "g" "u"
      = some (max 0 (5 + ([-3, 4] : List Int).sum)) :=
  awardXp_seq_spec [-3, 4] [("g", [("u", 5)])] "g" "u" 5 (by decide)
    (by
      intro k
      rcases k with _ | _ | k
      · decide
      · decide
      · simp [List.take_succ_cons])

end DndXpBot

namespace DndXpBot

/-! ### Join, setlevel, progress lemmas -/

/-- C5: `join` on an existing member leaves the persisted store unchanged
and returns the current record; on an absent member it seeds
`max requestedXp (thresholdAt requestedLevel)`, and with the default
arguments (level 1, xp 0) it seeds xp 0 at level 1. -/
theorem join_spec (file : DB) (gid uid : String) (L : Nat) (xp : Int)
    (h1 : 1 ≤ L) (h2 : L ≤ 20) :
    (∀ x, memberXp file gid uid = some x →
        (join file gid uid L xp).1 = file ∧
        (join file gid uid L xp).2 =
          { already := true, xp := x, lvl := level_from_xp x,
            rem := remaining_to_next x }) ∧
    (memberXp file gid uid = none →
        memberXp (join file gid uid L xp).1 gid uid
          = some (max xp (thresholdAt L)) ∧
        (join file gid uid L xp).2.xp = max xp (thresholdAt L) ∧
        (join file gid uid L xp).2.already = false ∧
        memberXp (join file gid uid 1 0).1 gid uid = some 0 ∧
        (join file gid uid 1 0).2.lvl = 1) := by
  have hmax : ∀ (m : Int), (if xp < m then m else xp) = max xp m := by
    intro m
    split_ifs <;> omega
  constructor
  · intro x hx
    cases hg : getA file gid with
    | none => simp [memberXp, hg] at hx
    | some g =>
        simp only [memberXp, hg] at hx
        unfold join guild_bucket
        simp [hg, hx]
  · intro hx
    cases hg : getA file gid with
    | none =>
        refine ⟨?_, ?_, ?_, ?_, ?_⟩ <;>
          simp [join, guild_bucket, memberXp, hg, getA, getA_setA_self, hmax,
                thresholdAt] <;>
          decide
    | some g =>
        have hu : getA g uid = none := by
          simpa [memberXp, hg] using hx
        refine ⟨?_, ?_, ?_, ?_, ?_⟩ <;>
          simp [join, guild_bucket, memberXp, hg, hu, getA_setA_self, hmax,
                thresholdAt] <;>
          decide

/-- Witness for C5: a store where "u" is absent, joining at level 2 with
requested xp 10 seeds the level-2 threshold. -/
theorem join_spec_witness :
    ((∀ x, memberXp [] "g" "u" = some x →
        (join [] "g" "u" 2 10).1 = [] ∧
        (join [] "g" "u" 2 10).2 =
          { already := true, xp := x, lvl := level_from_xp x,
            rem := remaining_to_next x }) ∧
    (memberXp [] "g" "u" = none →
        memberXp (join [] "g" "u" 2 10).1 "g" "u"
          = some (max 10 (thresholdAt 2)) ∧
        (join [] "g" "u" 2 10).2.xp = max 10 (thresholdAt 2) ∧
        (join [] "g" "u" 2 10).2.already = false ∧
        memberXp (join [] "g" "u" 1 0).1 "g" "u" = some 0 ∧
        (join [] "g" "u" 1 0).2.lvl = 1)) ∧
    memberXp (join [] "g" "u" 2 10).1 "g" "u" = some 300 :=
  ⟨join_spec [] "g" "u" 2 10 (by decide) (by decide),
   ((join_spec [] "g" "u" 2 10 (by decide) (by decide)).2 (by decide)).1.trans
     (by decide)⟩

/-- C6: `setlevel` snaps the stored xp to exactly the threshold of the
requested level — whatever the member held before — and the level computed
from that xp is the requested level; the level-5 threshold is 6500. -/
theorem setlevel_spec (file : DB) (gid uid : String) (L : Nat)
    (h1 : 1 ≤ L) (h2 : L ≤ 20) :
    memberXp (setlevel file gid uid L).1 gid uid = some (thresholdAt L) ∧
    (setlevel file gid uid L).2 = thresholdAt L ∧
    level_from_xp (thresholdAt L) = L ∧
    thresholdAt 5 = 6500 := by
  refine ⟨?_, rfl, level_from_xp_thresholdAt L h1 h2, by decide⟩
  unfold setlevel guild_bucket ensure_member memberXp
  cases hg : getA file gid with
  | none => simp [hg, getA, getA_setA_self, thresholdAt]
  | some g =>
      cases hu : getA g uid with
      | none => simp [hg, hu, getA_setA_self, thresholdAt]
      | some x => simp [hg, hu, getA_setA_self, thresholdAt]

/-- Witness for C6: a member at xp 20000 snapped down to level 5. -/
theorem setlevel_spec_witness :
    memberXp (setlevel [("g", [("u", 20000)])] "g" "u" 5).1 "g" "u"
      = some (thresholdAt 5) ∧
    (setlevel [("g", [("u", 20000)])] "g" "u" 5).2 = thresholdAt 5 ∧
    level_from_xp (thresholdAt 5) = 5 ∧
    thresholdAt 5 = 6500 :=
  setlevel_spec [("g", [("u", 20000)])] "g" "u" 5 (by decide) (by decide)

/-- C7: `progress_in_level` returns (0, 0, 20) exactly at level 20,
`remaining_to_next` is `none` exactly at level 20, and below level 20 it is
`max 0 (next threshold - xp)`. -/
theorem progress_max_level (xp : Int) (h0 : 0 ≤ xp) :
    (progress_in_level xp = (0, 0, 20) ↔ level_from_xp xp = 20) ∧
    (remaining_to_next xp = none ↔ level_from_xp xp = 20) ∧
    (level_from_xp xp ≠ 20 →
      ∃ nxt, next_threshold (level_from_xp xp) = some nxt ∧
        remaining_to_next xp = some (max 0 (nxt - xp))) := by
  have hle : level_from_xp xp ≤ 20 := by
    unfold level_from_xp
    omega
  by_cases h : level_from_xp xp = 20
  · refine ⟨⟨fun _ => h, fun _ => ?_⟩, ⟨fun _ => h, fun _ => ?_⟩, fun hne => absurd h hne⟩
    · unfold progress_in_level
      simp [h]
    · unfold remaining_to_next next_threshold
      simp [h]
  · have hlt : level_from_xp xp < 20 := lt_of_le_of_ne hle h
    have hnle : ¬ 20 ≤ level_from_xp xp := by omega
    refine ⟨⟨fun hp => ?_, fun h20 => absurd h20 h⟩,
            ⟨fun hr => ?_, fun h20 => absurd h20 h⟩, fun _ => ?_⟩
    · unfold progress_in_level at hp
      simp only [hnle, if_false] at hp
      have := congrArg (fun t => t.2.2) hp
      simp at this
      omega
    · unfold remaining_to_next next_threshold at hr
      simp [hnle] at hr
    · refine ⟨XP_THRESHOLDS.getD (level_from_xp xp) 0, ?_, ?_⟩
      · unfold next_threshold
        simp [hnle]
      · unfold remaining_to_next next_threshold
        simp [hnle]

/-- Witness for C7 at xp 0 (level 1, below max). -/
theorem progress_max_level_witness :
    (progress_in_level 0 = (0, 0, 20) ↔ level_from_xp 0 = 20) ∧
    (remaining_to_next 0 = none ↔ level_from_xp 0 = 20) ∧
    (level_from_xp 0 ≠ 20 →
      ∃ nxt, next_threshold (level_from_xp 0) = some nxt ∧
        remaining_to_next 0 = some (max 0 (nxt - 0))) :=
  progress_max_level 0 (by decide)

end DndXpBot

namespace DndXpBot

/-! ### Progress bar -/

/-- Length of a string built from a character list. -/
theorem length_mk (l : List Char) : (String.mk l).length = l.length := rfl

/-- Data of a string built from a character list. -/
theorem data_mk (l : List Char) : (String.mk l).data = l := rfl

/-- C8: the bar always has exactly `width` cells; with positive `need` the
filled-cell count is the rounded ratio clamped to [0, width]; with
`need ≤ 0` — including the (0, 0) input at max level — every cell is
filled. -/
theorem renderBar_spec (cur need : Int) (width : Nat) (hc : 0 ≤ cur) :
    (render_progress_bar cur need width).length = width ∧
    (0 < need →
      ((render_progress_bar cur need width).data.count '█' : Int)
        = max 0 (min (width : Int)
            (pyRound ((width : ℚ) * ((cur : ℚ) / (need : ℚ)))))) ∧
    (need ≤ 0 →
      render_progress_bar cur need width = String.mk (List.replicate width '█')) ∧
    render_progress_bar 0 0 20 = String.mk (List.replicate 20 '█') := by
  by_cases hneed : need ≤ 0
  · refine ⟨?_, fun hpos => absurd hpos (by omega), fun _ => ?_, ?_⟩
    · unfold render_progress_bar
      simp [hneed, length_mk]
    · unfold render_progress_bar
      simp [hneed]
    · rfl
  · set filled := pyRound ((width : ℚ) * ((cur : ℚ) / (need : ℚ))) with hf
    have hw : (max 0 (min (width : Int) filled)).toNat ≤ width := by
      have := min_le_left (width : Int) filled
      omega
    refine ⟨?_, fun _ => ?_, fun hle => absurd hle hneed, ?_⟩
    · unfold render_progress_bar
      simp only [hneed, if_false, length_mk]
      rw [List.length_append, List.length_replicate, List.length_replicate]
      omega
    · unfold render_progress_bar
      simp only [hneed, if_false, data_mk]
      rw [← hf, List.count_append, List.count_replicate, List.count_replicate]
      norm_num
      intro h
      exact absurd h (by decide)
    · rfl

/-- Witness for C8: cur 150, need 300, width 20 gives a 10-cell fill. -/
theorem renderBar_spec_witness :
    (render_progress_bar 150 300 20).length = 20 ∧
    (0 < (300 : Int) →
      ((render_progress_bar 150 300 20).data.count '█' : Int)
        = max 0 (min ((20 : Nat) : Int)
            (pyRound (((20 : Nat) : ℚ) * (((150 : Int) : ℚ) / ((300 : Int) : ℚ)))))) ∧
    ((300 : Int) ≤ 0 →
      render_progress_bar 150 300 20 = String.mk (List.replicate 20 '█')) ∧
    render_progress_bar 0 0 20 = String.mk (List.replicate 20 '█') :=
  renderBar_spec 150 300 20 (by decide)

end DndXpBot

namespace DndXpBot

/-! ### Party listing and read-only operations -/

/-- The tuple comparison used by the sort implies the spec's ordering:
descending level, then descending xp, then ascending lowercased name. -/
theorem partyLE_imp_partyOrder (a b : String × Int) (h : partyLE a b) :
    partyOrder a b := by
  unfold partyLE sortKey at h
  rw [Prod.Lex.le_iff] at h
  unfold partyOrder
  rcases h with h | ⟨h1, h⟩
  · dsimp only at h
    left
    omega
  · dsimp only at h1
    have hlvl : level_from_xp a.2 = level_from_xp b.2 := by omega
    rw [Prod.Lex.le_iff] at h
    rcases h with h | ⟨h2, h⟩
    · dsimp only at h
      right
      exact ⟨hlvl, Or.inl (by omega)⟩
    · dsimp only at h2
      have hxp : a.2 = b.2 := by omega
      rw [Prod.Lex.le_iff] at h
      rcases h with h | ⟨h3, _⟩
      · dsimp only at h
        exact Or.inr ⟨hlvl, Or.inr ⟨hxp, le_of_lt h⟩⟩
      · dsimp only at h3
        exact Or.inr ⟨hlvl, Or.inr ⟨hxp, le_of_eq h3⟩⟩

/-- C9: the party listing is a permutation of the guild's members (with
caller-supplied display names) and is sorted by descending level, ties by
descending xp, further ties by ascending case-insensitive name. -/
theorem party_listing_sorted (file : DB) (gid : String) (nameOf : String → String) :
    ((party file gid nameOf).2).Perm
      (((guild_bucket file gid).2).map (fun p => (nameOf p.1, p.2))) ∧
    List.Sorted partyOrder (party file gid nameOf).2 := by
  constructor
  · exact List.perm_insertionSort partyLE _
  · exact List.Pairwise.imp (fun h => partyLE_imp_partyOrder _ _ h)
      (List.sorted_insertionSort partyLE _)

/-- C10: `status` and `party` return the persisted store unchanged — they
never save — even though `guild_bucket` inserts an empty in-memory bucket
for an unknown guild id. -/
theorem readonly_ops_no_save (file : DB) (gid uid : String)
    (nameOf : String → String) :
    (status file gid uid).1 = file ∧
    (party file gid nameOf).1 = file ∧
    (getA file gid = none →
      (guild_bucket file gid).1 = setA file gid [] ∧
      getA (guild_bucket file gid).1 gid = some ([] : Members)) := by
  refine ⟨?_, rfl, fun h => ?_⟩
  · unfold status
    cases hu : getA (guild_bucket file gid).2 uid <;> simp [hu]
  · unfold guild_bucket
    rw [h]
    exact ⟨rfl, getA_setA_self file gid []⟩

/-- Witness for C10 on the empty store, where the guild id is unknown. -/
theorem readonly_ops_no_save_witness :
    (status [] "g" "u").1 = [] ∧
    (party [] "g" (fun s => s)).1 = [] ∧
    (guild_bucket ([] : DB) "g").1 = setA [] "g" [] :=
  ⟨(readonly_ops_no_save [] "g" "u" (fun s => s)).1,
   (readonly_ops_no_save [] "g" "u" (fun s => s)).2.1,
   ((readonly_ops_no_save [] "g" "u" (fun s => s)).2.2 rfl).1⟩

end DndXpBot
